import Mathlib

/-!
Verification of the webgenr document pipeline.

Text is modelled as `List Char`; Rust string operations used by the code
(`starts_with`, `split`, `drain`, `trim_end_matches`, `ends_with`) are
embedded as executable functions below.  A function that can panic in Rust
(an out-of-bounds `String::drain`) is embedded with result type `Option _`,
where `none` is the panic.
-/

namespace Webgenr

/-- The text of a Lean string as a list of characters. -/
def chars (s : String) : List Char := s.data

/-- First occurrence split: `splitFirst pat s = some (pre, post)` when `s`
contains `pat` as a contiguous sublist, with `pre` the part before the
leftmost occurrence and `post` the part after it; `none` when `pat` does
not occur.  This is how `str::split` produces its second element after the
leading separator has been consumed. -/
def splitFirst (pat : List Char) : List Char → Option (List Char × List Char)
  | [] => if pat.isPrefixOf ([] : List Char) then some ([], []) else none
  | c :: rest =>
    if pat.isPrefixOf (c :: rest) then some ([], (c :: rest).drop pat.length)
    else
      match splitFirst pat rest with
      | some (pre, post) => some (c :: pre, post)
      | none => none

/-- `pat` occurs somewhere in `s` as a contiguous sublist. -/
def isSubstring (pat : List Char) : List Char → Bool
  | [] => pat.isPrefixOf ([] : List Char)
  | c :: rest => pat.isPrefixOf (c :: rest) || isSubstring pat rest

/-- The LF-style front matter separator line `---\n`
(`document.rs`, `split_yml_from_string`). -/
def yamlSepLf : List Char := chars "---\n"

/-- The CRLF-style front matter separator line `---\r\n`. -/
def yamlSepCrLf : List Char := chars "---\r\n"

/-- The separator-detection loop of `split_yml_from_string`: both separators
are tested with `starts_with` in order, the later match overwriting the
earlier (they are mutually exclusive). -/
def findYamlSep (input : List Char) : Option (List Char) :=
  let r := if yamlSepLf.isPrefixOf input then some yamlSepLf else none
  if yamlSepCrLf.isPrefixOf input then some yamlSepCrLf else r

/-- `FrontMatter::split_yml_from_string` (document.rs lines 23-53), restricted
to its text manipulation (the YAML parse of the extracted block is external).
Result: `none` models the panic of `input.drain(..)` when the drained range
exceeds the input length; `some (none, input)` is the no-front-matter case
(input returned untouched); `some (some y, rest)` is a successful split, with
`y` the extracted block and `rest` what remains of `input` after the drain.
The drain removes `y.length + 2 * sep.length` characters, which equals the
prefix `sep ++ y ++ sep` exactly when a closing separator occurrence exists,
and exceeds the whole input (panic) when it does not. -/
def split_yml_from_string (input : List Char) :
    Option (Option (List Char) × List Char) :=
  match findYamlSep input with
  | none => some (none, input)
  | some sep =>
    match splitFirst sep (input.drop sep.length) with
    | some (y, post) => some (some y, post)
    | none => none

/-- One step of Rust `str::trim_end_matches`, fuelled: while the pattern is a
suffix, remove it from the end.  The fuel `s.length` always suffices because
each round removes at least one character (and an empty pattern leaves the
text unchanged, as in Rust). -/
def trimEndAux (pat : List Char) : Nat → List Char → List Char
  | 0, s => s
  | fuel + 1, s =>
    if pat.isSuffixOf s then trimEndAux pat fuel (s.take (s.length - pat.length))
    else s

/-- Rust `str::trim_end_matches`: repeatedly removes the pattern from the end
of the text while it is a suffix. -/
def trimEndMatches (pat s : List Char) : List Char := trimEndAux pat s.length s

/-- Split a file name at its last dot: `some (pre, post)` where `post` is the
part after the final `.` (which contains no further dot) and `pre` the part
before it; `none` when the name contains no dot. -/
def splitLastDot : List Char → Option (List Char × List Char)
  | [] => none
  | c :: rest =>
    match splitLastDot rest with
    | some (pre, post) => some (c :: pre, post)
    | none => if c = ('.' : Char) then some ([], rest) else none

/-- Modelled from the spec: `get_ext` from the missing `util` module — the
extension of a URL, the substring after the final dot (empty when the URL
has no dot), used as the key of the extension-to-MIME lookup. -/
def get_ext (url : List Char) : List Char :=
  match splitLastDot url with
  | some (_, post) => post
  | none => []

/-- Modelled from the spec: the extension-to-MIME lookup table of the missing
`util` module.  The spec names only the pair `mp3` / `audio/mpeg`. -/
def audioMimeTable : List (List Char × List Char) :=
  [(chars "mp3", chars "audio/mpeg")]

/-- Look up a key in an association list of character strings. -/
def assocLookup (k : List Char) : List (List Char × List Char) → Option (List Char)
  | [] => none
  | (k2, v) :: rest => if k2 = k then some v else assocLookup k rest

/-- Modelled from the spec: `is_audio_file` from the missing `util` module —
a URL is an audio file when its extension is in the MIME lookup table;
unrecognized extensions fall through to ordinary link handling. -/
def is_audio_file (url : List Char) : Bool :=
  (assocLookup (get_ext url) audioMimeTable).isSome

/-- Modelled from the spec: `get_mimetype` from the missing `util` module —
the MIME type for a recognized audio extension. -/
def get_mimetype (ext : List Char) : List Char :=
  (assocLookup ext audioMimeTable).getD []

/-- The fragment of the pulldown-cmark event algebra that `write_html`
discriminates on: link start tags (with their type, target and title), text,
link end tags, raw HTML, and all other events collapsed to an opaque tag. -/
inductive MdEvent : Type
  | startLink (linkType : Nat) (url : List Char) (title : List Char)
  | text (s : List Char)
  | endLink
  | html (s : List Char)
  | other (k : Nat)
deriving DecidableEq

/-- The Markdown file suffix `.md` checked by `write_html`. -/
def mdSuffix : List Char := chars ".md"

/-- The fallback clickable play affordance built by `write_html` for an audio
link (its `my_link_text`). -/
def audioLinkHtml (url title linkText : List Char) : List Char :=
  chars "<a href=\"" ++ url ++ chars "\" title=\"" ++ title ++
    chars "\" class=\"audio\"><span class=\"fa-solid fa-play\">" ++ linkText ++
    chars "</span></a>"

/-- The inline audio player emitted by `write_html` for an audio link
(its `my_html`). -/
def audioPlayerHtml (url title linkText : List Char) : List Char :=
  chars "<audio controls><source src=\"" ++ url ++ chars "\" type=\"" ++
    get_mimetype (get_ext url) ++
    chars "\">Your browser does not support the audio element. " ++
    audioLinkHtml url title linkText ++ chars "</audio>"

/-- The event-rewriting loop of `Document::write_html` (document.rs lines
183-218): a link start whose target ends in `.md` has the target rewritten
with `trim_end_matches(".md")` plus `.html`; a link start whose target is an
audio file consumes the following text event and the event after it (the
code unconditionally skips one more event to drop the closing tag) and
emits a single raw-HTML audio player; when the event after the link start is
not a text event, only that one event is consumed and the fallback text is
`#`; at end of stream the fallback text is empty.  All other events pass
through unchanged. -/
def rewriteEvents : List MdEvent → List MdEvent
  | [] => []
  | MdEvent.startLink lt url title :: rest =>
    if mdSuffix.isSuffixOf url then
      MdEvent.startLink lt (trimEndMatches mdSuffix url ++ chars ".html") title ::
        rewriteEvents rest
    else if is_audio_file url then
      match rest with
      | MdEvent.text t :: rest2 =>
        match rest2 with
        | [] => MdEvent.html (audioPlayerHtml url title t) :: rewriteEvents []
        | _ :: rest3 => MdEvent.html (audioPlayerHtml url title t) :: rewriteEvents rest3
      | _ :: rest2 => MdEvent.html (audioPlayerHtml url title (chars "#")) :: rewriteEvents rest2
      | [] => [MdEvent.html (audioPlayerHtml url title [])]
    else MdEvent.startLink lt url title :: rewriteEvents rest
  | e :: rest => e :: rewriteEvents rest

/-- The last path component: the characters after the final `/`
(Rust `Path::file_name` for ordinary file paths). -/
def lastComponent (p : List Char) : List Char :=
  p.foldl (fun acc c => if c = ('/' : Char) then [] else acc ++ [c]) []

/-- Rust `Path::file_name`: `none` when the path has no final component. -/
def fileNameOf (p : List Char) : Option (List Char) :=
  let n := lastComponent p
  if n = [] then none else some n

/-- Rust `Path::file_stem` applied to a file name: the whole name when it
has no dot, or when its only dot is the leading character; otherwise the
part before the final dot. -/
def fileStemOfName (n : List Char) : List Char :=
  match splitLastDot n with
  | some (pre, _) => if pre = [] then n else pre
  | none => n

/-- Rust `Path::extension` applied to a file name: the part after the final
dot, unless the name has no dot or its only dot is the leading character. -/
def extensionOfName (n : List Char) : Option (List Char) :=
  match splitLastDot n with
  | some (pre, post) => if pre = [] then none else some post
  | none => none

/-- Rust `Path::file_stem` on a full path. -/
def pathFileStem (p : List Char) : Option (List Char) :=
  (fileNameOf p).map fileStemOfName

/-- The reference type a content part is registered under in the ePub
(`epub_builder::ReferenceType` as used by `make_book_internal`). -/
inductive RefKind : Type
  | titlePage
  | textBody
deriving DecidableEq

/-- One part handed to the ePub builder by `make_book_internal`: either the
cover image (source path plus MIME string) or a content part (zip path,
structural title, reference type). -/
inductive BookPart : Type
  | cover (srcPath mime : List Char)
  | content (zipPath title : List Char) (kind : RefKind)
deriving DecidableEq

/-- The document loop of `Web::make_book_internal` (web.rs lines 177-235),
threading the chapter counter: a document whose file stem is `cover` or
`_cover` becomes the cover image, with MIME string `image/` followed by the
result of `Path::file_stem` (the code computes its `extension` variable from
`file_stem`, falling back to `png` only when the stem is absent); a stem
`title` or `_title` becomes a title-page content part named by the full file
name; any other document becomes a chapter content part named after the
file stem with `.xhtml` appended (`chapterN.xhtml` if the stem were
unavailable) and titled `Chapter N`, and only then is the counter bumped.
A document with no usable file stem aborts the assembly (`none`). -/
def bookSteps : Nat → List (List Char) → Option (List BookPart)
  | _, [] => some []
  | n, p :: ps =>
    match pathFileStem p with
    | none => none
    | some stem =>
      if stem = chars "cover" ∨ stem = chars "_cover" then
        let extension :=
          match pathFileStem p with
          | some s => s
          | none => chars "png"
        (bookSteps n ps).map
          (fun parts => BookPart.cover p (chars "image/" ++ extension) :: parts)
      else if stem = chars "title" ∨ stem = chars "_title" then
        (bookSteps n ps).map
          (fun parts =>
            BookPart.content ((fileNameOf p).getD []) (chars "Title Page")
              RefKind.titlePage :: parts)
      else
        let zipPath :=
          match pathFileStem p with
          | some s => s ++ chars ".xhtml"
          | none => chars "chapter" ++ chars (Nat.repr n) ++ chars ".xhtml"
        (bookSteps (n + 1) ps).map
          (fun parts =>
            BookPart.content zipPath (chars "Chapter " ++ chars (Nat.repr n))
              RefKind.textBody :: parts)

/-- `make_book_internal`'s part list for a scan-ordered document list: the
chapter counter starts at 1. -/
def makeBookParts (docs : List (List Char)) : Option (List BookPart) :=
  bookSteps 1 docs

/-- The structural titles of the chapter (body text) parts, in order. -/
def chapterTitles : List BookPart → List (List Char)
  | [] => []
  | BookPart.content _ t RefKind.textBody :: rest => t :: chapterTitles rest
  | _ :: rest => chapterTitles rest

/-- A document that `make_book_internal` classifies as a chapter: its file
stem exists and is none of `cover`, `_cover`, `title`, `_title`. -/
def isChapterDoc (p : List Char) : Bool :=
  match pathFileStem p with
  | some s =>
    if s = chars "cover" ∨ s = chars "_cover" ∨ s = chars "title" ∨ s = chars "_title"
    then false else true
  | none => false

theorem splitFirst_eq_append {pat : List Char} :
    ∀ {s a b : List Char}, splitFirst pat s = some (a, b) → s = a ++ pat ++ b := by
  intro s
  induction s with
  | nil =>
    intro a b h
    by_cases hp : pat.isPrefixOf ([] : List Char) = true
    · have hpat : pat = [] := by
        cases pat with
        | nil => rfl
        | cons x xs => simp [List.isPrefixOf] at hp
      simp [splitFirst, hp] at h
      obtain ⟨ha, hb⟩ := h
      subst ha; subst hb; simp [hpat]
    · simp [splitFirst, hp] at h
  | cons c rest ih =>
    intro a b h
    by_cases hp : pat.isPrefixOf (c :: rest) = true
    · simp only [splitFirst, if_pos hp] at h
      have hp' : pat <+: c :: rest := by simpa using hp
      obtain ⟨t, ht⟩ := hp'
      have hdrop : (c :: rest).drop pat.length = t := by
        rw [← ht]; exact List.drop_left pat t
      simp only [Option.some.injEq, Prod.mk.injEq] at h
      obtain ⟨ha, hb⟩ := h
      subst ha; subst hb
      rw [hdrop, ← ht]; simp
    · simp only [splitFirst, if_neg hp] at h
      cases hrec : splitFirst pat rest with
      | none => rw [hrec] at h; simp at h
      | some pr =>
        obtain ⟨pre, post⟩ := pr
        rw [hrec] at h
        simp only [Option.some.injEq, Prod.mk.injEq] at h
        obtain ⟨ha, hb⟩ := h
        subst ha; subst hb
        have hs := ih hrec
        simp [hs]

theorem splitFirst_eq_none {pat : List Char} :
    ∀ {s : List Char}, isSubstring pat s = false → splitFirst pat s = none := by
  intro s
  induction s with
  | nil =>
    intro h
    simp only [isSubstring] at h
    simp [splitFirst, h]
  | cons c rest ih =>
    intro h
    simp only [isSubstring, Bool.or_eq_false_iff] at h
    obtain ⟨h1, h2⟩ := h
    simp [splitFirst, h1, ih h2]

theorem splitFirst_isSome_of_substring {pat : List Char} :
    ∀ {s : List Char}, isSubstring pat s = true → (splitFirst pat s).isSome = true := by
  intro s
  induction s with
  | nil =>
    intro h
    simp only [isSubstring] at h
    simp [splitFirst, h]
  | cons c rest ih =>
    intro h
    by_cases hp : pat.isPrefixOf (c :: rest) = true
    · simp [splitFirst, hp]
    · simp only [isSubstring, Bool.or_eq_true] at h
      rcases h with h | h
      · exact absurd h hp
      · have := ih h
        simp only [splitFirst, if_neg hp]
        cases hrec : splitFirst pat rest with
        | none => rw [hrec] at this; simp at this
        | some pr => obtain ⟨pre, post⟩ := pr; simp

theorem isSubstring_of_prefixAt (pat : List Char) :
    ∀ (u w : List Char), pat.isPrefixOf w = true → isSubstring pat (u ++ w) = true := by
  intro u
  induction u with
  | nil =>
    intro w hw
    cases w with
    | nil => simpa [isSubstring] using hw
    | cons c cs => simp [isSubstring, hw]
  | cons c cs ih =>
    intro w hw
    simp [isSubstring, ih w hw]

theorem isSubstring_sandwich (pat u v : List Char) :
    isSubstring pat (u ++ (pat ++ v)) = true :=
  isSubstring_of_prefixAt pat u (pat ++ v) (by simp)

theorem findYamlSep_lf (x : List Char) :
    findYamlSep (yamlSepLf ++ x) = some yamlSepLf := by
  have h1 : yamlSepLf.isPrefixOf (yamlSepLf ++ x) = true := by simp
  have h2 : yamlSepCrLf.isPrefixOf (yamlSepLf ++ x) = false := by
    simp [yamlSepCrLf, yamlSepLf, chars, List.isPrefixOf]
  simp [findYamlSep, h1, h2]

theorem findYamlSep_crlf (x : List Char) :
    findYamlSep (yamlSepCrLf ++ x) = some yamlSepCrLf := by
  have h2 : yamlSepCrLf.isPrefixOf (yamlSepCrLf ++ x) = true := by simp
  simp [findYamlSep, h2]

/-- Claim C1 (code bug): on an input that begins with the opening front
matter delimiter but contains no closing delimiter, `split_yml_from_string`
does not return `None` with the text untouched; the `input.drain(..)` range
exceeds the input length, so the function aborts (models as `none`). -/
theorem c1_unterminated_front_matter_aborts :
    split_yml_from_string (chars "---\nfoo") = none ∧
    split_yml_from_string (chars "---\nfoo") ≠ some (none, chars "---\nfoo") := by
  constructor
  · rfl
  · decide

/-- Claim C6: for a well-formed leading metadata block (opening delimiter,
block, closing delimiter in the same line-ending style), concatenating the
delimiter, the extracted block, the delimiter and the returned remainder
reproduces the original input exactly. -/
theorem c6_split_roundtrip (y r sep : List Char)
    (hsep : sep = yamlSepLf ∨ sep = yamlSepCrLf) :
    ∃ y' r', split_yml_from_string (sep ++ (y ++ (sep ++ r))) = some (some y', r') ∧
      sep ++ (y' ++ (sep ++ r')) = sep ++ (y ++ (sep ++ r)) := by
  have hfind : findYamlSep (sep ++ (y ++ (sep ++ r))) = some sep := by
    rcases hsep with h | h <;> subst h
    · exact findYamlSep_lf _
    · exact findYamlSep_crlf _
  have hdrop : (sep ++ (y ++ (sep ++ r))).drop sep.length = y ++ (sep ++ r) :=
    List.drop_left _ _
  have hsub : isSubstring sep (y ++ (sep ++ r)) = true := isSubstring_sandwich sep y r
  have hsome := splitFirst_isSome_of_substring hsub
  cases hsf : splitFirst sep (y ++ (sep ++ r)) with
  | none => rw [hsf] at hsome; simp at hsome
  | some pr =>
    obtain ⟨y', r'⟩ := pr
    refine ⟨y', r', ?_, ?_⟩
    · simp only [split_yml_from_string, hfind, hdrop, hsf]
    · have hdecomp := splitFirst_eq_append hsf
      rw [hdecomp]
      simp [List.append_assoc]

/-- Claim C10: the closing delimiter is found by a substring search for the
opening separator anywhere in the remaining text (so a line whose content
ends in `---` terminates the block there), and a closing delimiter in a
different line-ending style than the opening one is not found at all. -/
theorem c10_closing_delimiter_substring_search :
    split_yml_from_string (chars "---\ntitle: x\nfoo---\nrest") =
      some (some (chars "title: x\nfoo"), chars "rest") ∧
    (∀ u v : List Char, isSubstring yamlSepLf (u ++ (yamlSepCrLf ++ v)) = false →
      split_yml_from_string (yamlSepLf ++ (u ++ (yamlSepCrLf ++ v))) = none) := by
  constructor
  · rfl
  · intro u v h
    have hfind := findYamlSep_lf (u ++ (yamlSepCrLf ++ v))
    have hdrop : (yamlSepLf ++ (u ++ (yamlSepCrLf ++ v))).drop yamlSepLf.length =
        u ++ (yamlSepCrLf ++ v) := List.drop_left _ _
    have hnone := splitFirst_eq_none h
    simp only [split_yml_from_string, hfind, hdrop, hnone]

/-- Witness for C10: a concrete document whose front matter opens with LF
style but closes with the CRLF-style delimiter is treated as unterminated. -/
theorem c10_witness :
    split_yml_from_string (yamlSepLf ++ (chars "title: x" ++ (yamlSepCrLf ++ chars "rest"))) =
      none :=
  c10_closing_delimiter_substring_search.2 (chars "title: x") (chars "rest") (by decide)

/-- Witness for C6: the round-trip evaluated on a concrete document. -/
theorem c6_witness :
    ∃ y' r', split_yml_from_string (yamlSepLf ++ (chars "title: x\n" ++ (yamlSepLf ++ chars "hello\n"))) =
        some (some y', r') ∧
      yamlSepLf ++ (y' ++ (yamlSepLf ++ r')) =
        yamlSepLf ++ (chars "title: x\n" ++ (yamlSepLf ++ chars "hello\n")) :=
  c6_split_roundtrip (chars "title: x\n") (chars "hello\n") yamlSepLf (Or.inl rfl)

theorem trimEndAux_succ (pat : List Char) (fuel : Nat) (s : List Char) :
    trimEndAux pat (fuel + 1) s =
      if pat.isSuffixOf s then trimEndAux pat fuel (s.take (s.length - pat.length))
      else s := rfl

theorem trimEndMatches_append_single {s : List Char}
    (h : mdSuffix.isSuffixOf s = false) :
    trimEndMatches mdSuffix (s ++ mdSuffix) = s := by
  have hlen : (s ++ mdSuffix).length = s.length + 3 := by
    simp [mdSuffix, chars]
  have hsuf : mdSuffix.isSuffixOf (s ++ mdSuffix) = true := by simp
  have htake : (s ++ mdSuffix).take ((s ++ mdSuffix).length - mdSuffix.length) = s := by
    have hl : (s ++ mdSuffix).length - mdSuffix.length = s.length := by
      simp [List.length_append]
    rw [hl]
    exact List.take_left s mdSuffix
  rw [trimEndMatches, hlen]
  rw [show s.length + 3 = (s.length + 2) + 1 from rfl, trimEndAux_succ, if_pos hsuf, htake]
  rw [show s.length + 2 = (s.length + 1) + 1 from rfl, trimEndAux_succ]
  simp [h]

/-- Claim C2 counterexample: the suffix rewrite uses `trim_end_matches`,
which removes every trailing repetition of `.md`, so the target `x.md.md` is
rewritten to `x.html`, not to `x.md.html` as the claim states. -/
theorem c2_counterexample :
    rewriteEvents [MdEvent.startLink 0 (chars "x.md.md") []] =
      [MdEvent.startLink 0 (chars "x.html") []] ∧
    chars "x.html" ≠ chars "x.md.html" := by
  constructor
  · rfl
  · decide

/-- Claim C2 (amended): a link target ending in `.md` is rewritten with all
trailing repetitions of `.md` removed and `.html` appended — so a target
with a single `.md` suffix such as `a/b.md` becomes `a/b.html` with no other
content changed; a target not ending in `.md` (in particular one with a
fragment after `.md`, such as `a/b.md#frag`) is not rewritten. -/
theorem c2_md_link_rewrite (lt : Nat) (s title : List Char) (rest : List MdEvent) :
    (mdSuffix.isSuffixOf s = false →
      rewriteEvents (MdEvent.startLink lt (s ++ mdSuffix) title :: rest) =
        MdEvent.startLink lt (s ++ chars ".html") title :: rewriteEvents rest) ∧
    (∀ u, mdSuffix.isSuffixOf u = false → is_audio_file u = false →
      rewriteEvents (MdEvent.startLink lt u title :: rest) =
        MdEvent.startLink lt u title :: rewriteEvents rest) ∧
    rewriteEvents [MdEvent.startLink lt (chars "a/b.md#frag") title] =
      [MdEvent.startLink lt (chars "a/b.md#frag") title] := by
  refine ⟨?_, ?_, ?_⟩
  · intro h
    have hsuf : mdSuffix.isSuffixOf (s ++ mdSuffix) = true := by simp
    rw [rewriteEvents.eq_def]
    simp [hsuf, trimEndMatches_append_single h]
  · intro u h1 h2
    rw [rewriteEvents.eq_def]
    simp [h1, h2]
  · have h1 : mdSuffix.isSuffixOf (chars "a/b.md#frag") = false := by decide
    have h2 : is_audio_file (chars "a/b.md#frag") = false := by decide
    rw [rewriteEvents.eq_def]
    simp [h1, h2, rewriteEvents]

/-- Witness for C2 (amended): the target `a/b.md` rewrites to `a/b.html`. -/
theorem c2_witness :
    rewriteEvents [MdEvent.startLink 0 (chars "a/b" ++ mdSuffix) []] =
      MdEvent.startLink 0 (chars "a/b" ++ chars ".html") [] :: rewriteEvents [] :=
  (c2_md_link_rewrite 0 (chars "a/b") [] []).1 (by decide)

/-- Claim C5: at an audio link the rewrite consumes the link's inner text
event and the link's closing event — a lookahead of exactly two events — and
emits a single raw-HTML audio player in place of the whole span; the rest of
the stream is processed unchanged, so no event of the original link span
leaks into the output. -/
theorem c5_audio_link_consumes_span (lt : Nat) (url title t : List Char)
    (rest : List MdEvent) (haudio : is_audio_file url = true)
    (hmd : mdSuffix.isSuffixOf url = false) :
    rewriteEvents (MdEvent.startLink lt url title :: MdEvent.text t ::
        MdEvent.endLink :: rest) =
      MdEvent.html (audioPlayerHtml url title t) :: rewriteEvents rest := by
  simp [rewriteEvents, haudio, hmd]

/-- Witness for C5: the `Listen` link to `song.mp3` from the spec. -/
theorem c5_witness :
    rewriteEvents [MdEvent.startLink 0 (chars "song.mp3") [],
        MdEvent.text (chars "Listen"), MdEvent.endLink] =
      MdEvent.html (audioPlayerHtml (chars "song.mp3") [] (chars "Listen")) ::
        rewriteEvents [] :=
  c5_audio_link_consumes_span 0 (chars "song.mp3") [] (chars "Listen") []
    (by decide) (by decide)

/-- Claim C3 (code bug): for a cover document at path `cover.png` the code
derives the MIME type from `Path::file_stem` instead of the file's
extension, producing `image/cover` where the claim (and the code's own
variable names and messages, which speak of the file extension and a `png`
default) require `image/png`. -/
theorem c3_cover_mime_uses_stem :
    makeBookParts [chars "cover.png"] =
      some [BookPart.cover (chars "cover.png") (chars "image/cover")] ∧
    chars "image/cover" ≠ chars "image/png" := by
  constructor
  · rfl
  · decide

/-- Claim C4 counterexample: a title-page document `title.md` (file stem
`title`, not a cover) contributes a content part named by its full file name
`title.md`, not by its stem with `.xhtml` appended. -/
theorem c4_counterexample :
    makeBookParts [chars "title.md"] =
      some [BookPart.content (chars "title.md") (chars "Title Page")
        RefKind.titlePage] ∧
    chars "title.md" ≠ chars "title" ++ chars ".xhtml" := by
  constructor
  · rfl
  · decide

/-- Claim C4 (amended): every non-cover document contributes exactly one
packaged content part; a chapter document's part is named after its file
stem with `.xhtml` appended (the `chapterN.xhtml` fallback would apply only
were the stem unavailable), while a title-page document's part is named by
its full file name. -/
theorem c4_noncover_one_part (p : List Char) (ps : List (List Char)) (n : Nat)
    (s : List Char) (hstem : pathFileStem p = some s)
    (hnc : ¬(s = chars "cover" ∨ s = chars "_cover")) :
    ((s = chars "title" ∨ s = chars "_title") →
      bookSteps n (p :: ps) =
        (bookSteps n ps).map
          (fun parts => BookPart.content ((fileNameOf p).getD [])
            (chars "Title Page") RefKind.titlePage :: parts)) ∧
    (¬(s = chars "title" ∨ s = chars "_title") →
      bookSteps n (p :: ps) =
        (bookSteps (n + 1) ps).map
          (fun parts => BookPart.content (s ++ chars ".xhtml")
            (chars "Chapter " ++ chars (Nat.repr n)) RefKind.textBody :: parts)) := by
  constructor
  · intro ht
    rw [bookSteps.eq_2]
    simp [hstem, hnc, ht]
  · intro ht
    rw [bookSteps.eq_2]
    simp [hstem, hnc, ht]

/-- Witness for C4 (amended): a single chapter document `ch1.md` packaged as
`ch1.xhtml` with title `Chapter 1`. -/
theorem c4_witness :
    bookSteps 1 [chars "ch1.md"] =
      (bookSteps 2 []).map
        (fun parts => BookPart.content (chars "ch1" ++ chars ".xhtml")
          (chars "Chapter " ++ chars (Nat.repr 1)) RefKind.textBody :: parts) :=
  (c4_noncover_one_part (chars "ch1.md") [] 1 (chars "ch1") (by decide)
    (by decide)).2 (by decide)

theorem bookSteps_chapterTitles :
    ∀ (docs : List (List Char)) (n : Nat) (parts : List BookPart),
      bookSteps n docs = some parts →
      chapterTitles parts =
        (List.range' n (docs.countP isChapterDoc)).map
          (fun i => chars "Chapter " ++ chars (Nat.repr i)) := by
  intro docs
  induction docs with
  | nil =>
    intro n parts h
    simp only [bookSteps, Option.some.injEq] at h
    subst h
    simp [chapterTitles]
  | cons p ps ih =>
    intro n parts h
    rw [bookSteps.eq_2] at h
    cases hstem : pathFileStem p with
    | none => rw [hstem] at h; simp at h
    | some s =>
      rw [hstem] at h
      dsimp only at h
      by_cases hc : s = chars "cover" ∨ s = chars "_cover"
      · rw [if_pos hc] at h
        cases hrec : bookSteps n ps with
        | none => rw [hrec] at h; simp at h
        | some parts' =>
          rw [hrec] at h
          simp only [Option.map_some', Option.some.injEq] at h
          subst h
          have hcd : isChapterDoc p = false := by
            rcases hc with hc | hc <;> simp [isChapterDoc, hstem, hc]
          rw [List.countP_cons, hcd]
          simp only [if_false, Nat.add_zero, chapterTitles]
          exact ih n parts' hrec
      · rw [if_neg hc] at h
        by_cases ht : s = chars "title" ∨ s = chars "_title"
        · rw [if_pos ht] at h
          cases hrec : bookSteps n ps with
          | none => rw [hrec] at h; simp at h
          | some parts' =>
            rw [hrec] at h
            simp only [Option.map_some', Option.some.injEq] at h
            subst h
            have hcd : isChapterDoc p = false := by
              rcases ht with ht | ht <;> simp [isChapterDoc, hstem, ht]
            rw [List.countP_cons, hcd]
            simp only [if_false, Nat.add_zero, chapterTitles]
            exact ih n parts' hrec
        · rw [if_neg ht] at h
          cases hrec : bookSteps (n + 1) ps with
          | none => rw [hrec] at h; simp at h
          | some parts' =>
            rw [hrec] at h
            simp only [Option.map_some', Option.some.injEq] at h
            subst h
            have hcd : isChapterDoc p = true := by
              have : ¬(s = chars "cover" ∨ s = chars "_cover" ∨
                  s = chars "title" ∨ s = chars "_title") := by
                rintro (h1 | h1 | h1 | h1)
                · exact hc (Or.inl h1)
                · exact hc (Or.inr h1)
                · exact ht (Or.inl h1)
                · exact ht (Or.inr h1)
              simp [isChapterDoc, hstem, this]
            rw [List.countP_cons, hcd]
            simp only [if_true]
            rw [List.range'_succ]
            simp only [List.map_cons, hstem, chapterTitles]
            exact congrArg _ (ih (n + 1) parts' hrec)

/-- Claim C7: chapter sequence numbers are assigned in scan order starting
at 1 and advance only on documents classified as chapters, so cover and
title documents consume no number: the chapter titles produced are exactly
`Chapter 1 .. Chapter k` for the `k` chapter documents, positionally. -/
theorem c7_chapter_numbering (docs : List (List Char)) (parts : List BookPart)
    (h : makeBookParts docs = some parts) :
    chapterTitles parts =
      (List.range' 1 (docs.countP isChapterDoc)).map
        (fun i => chars "Chapter " ++ chars (Nat.repr i)) :=
  bookSteps_chapterTitles docs 1 parts h

/-- The document-scan order of the spec's chapter-numbering example. -/
def exampleScan : List (List Char) :=
  [chars "intro.md", chars "cover.png", chars "chapter-a.md",
   chars "_title.md", chars "chapter-b.md"]

/-- The parts `make_book_internal` produces for `exampleScan`. -/
def exampleParts : List BookPart :=
  [BookPart.content (chars "intro.xhtml") (chars "Chapter 1") RefKind.textBody,
   BookPart.cover (chars "cover.png") (chars "image/cover"),
   BookPart.content (chars "chapter-a.xhtml") (chars "Chapter 2") RefKind.textBody,
   BookPart.content (chars "_title.md") (chars "Title Page") RefKind.titlePage,
   BookPart.content (chars "chapter-b.xhtml") (chars "Chapter 3") RefKind.textBody]

/-- Witness for C7: the spec's example scan — `intro` is Chapter 1,
`chapter-a` Chapter 2, `chapter-b` Chapter 3; cover and title are skipped. -/
theorem c7_witness :
    chapterTitles exampleParts =
      (List.range' 1 (exampleScan.countP isChapterDoc)).map
        (fun i => chars "Chapter " ++ chars (Nat.repr i)) :=
  c7_chapter_numbering exampleScan exampleParts (by rfl)

/-- A template variable mapping (`HashMap<String, String>`) modelled as an
association list; lookup returns the first binding of a key. -/
abbrev Vars := List (List Char × List Char)

/-- Lookup in a variable mapping. -/
def lookupVar (k : List Char) : Vars → Option (List Char)
  | [] => none
  | (k2, v) :: rest => if k2 = k then some v else lookupVar k rest

/-- `HashMap::insert`: returns the previous value bound to the key (if any)
together with the updated mapping. -/
def insertVar (k v : List Char) : Vars → Option (List Char) × Vars
  | [] => (none, [(k, v)])
  | (k2, v2) :: rest =>
    if k2 = k then (some v2, (k, v) :: rest)
    else
      let r := insertVar k v rest
      (r.fst, (k2, v2) :: r.snd)

/-- The reserved template variable `body`. -/
def bodyKey : List Char := chars "body"

/-- The template-variable construction of `Document::webgen` (document.rs
lines 140-146): clone the front matter variables (or start empty), insert
the rendered HTML under `body`, and emit a warning exactly when the insert
displaced an existing front matter value. -/
def buildTemplateVars (front_matter : Option Vars) (htmlString : List Char) :
    Vars × Bool :=
  let vars : Vars :=
    match front_matter with
    | some fm => fm
    | none => []
  let r := insertVar bodyKey htmlString vars
  (r.snd, r.fst.isSome)

theorem insertVar_fst (k v : List Char) :
    ∀ m : Vars, (insertVar k v m).fst = lookupVar k m := by
  intro m
  induction m with
  | nil => simp [insertVar, lookupVar]
  | cons kv rest ih =>
    obtain ⟨k2, v2⟩ := kv
    by_cases hk : k2 = k
    · simp [insertVar, lookupVar, hk]
    · simp [insertVar, lookupVar, hk, ih]

theorem lookupVar_insertVar_self (k v : List Char) :
    ∀ m : Vars, lookupVar k (insertVar k v m).snd = some v := by
  intro m
  induction m with
  | nil => simp [insertVar, lookupVar]
  | cons kv rest ih =>
    obtain ⟨k2, v2⟩ := kv
    by_cases hk : k2 = k
    · simp [insertVar, lookupVar, hk]
    · simp [insertVar, lookupVar, hk, ih]

theorem lookupVar_insertVar_ne (k v k2 : List Char) (hne : k2 ≠ k) :
    ∀ m : Vars, lookupVar k2 (insertVar k v m).snd = lookupVar k2 m := by
  intro m
  induction m with
  | nil => simp [insertVar, lookupVar, Ne.symm hne]
  | cons kv rest ih =>
    obtain ⟨k3, v3⟩ := kv
    by_cases hk : k3 = k
    · subst hk
      simp [insertVar, lookupVar, Ne.symm hne]
    · simp [insertVar, lookupVar, hk, ih]

/-- Claim C8: the template mapping binds `body` to the rendered HTML, any
front matter `body` value is overwritten (with the warning flag raised
exactly when front matter defined `body`), and every other front matter
entry is looked up unchanged; without front matter the mapping is just the
`body` binding. -/
theorem c8_body_overwritten (fm : Vars) (htmlString : List Char) :
    lookupVar bodyKey (buildTemplateVars (some fm) htmlString).fst = some htmlString ∧
    (buildTemplateVars (some fm) htmlString).snd = (lookupVar bodyKey fm).isSome ∧
    (∀ k, k ≠ bodyKey →
      lookupVar k (buildTemplateVars (some fm) htmlString).fst = lookupVar k fm) ∧
    (buildTemplateVars none htmlString).fst = [(bodyKey, htmlString)] := by
  refine ⟨?_, ?_, ?_, ?_⟩
  · exact lookupVar_insertVar_self bodyKey htmlString fm
  · simp [buildTemplateVars, insertVar_fst]
  · intro k hk
    exact lookupVar_insertVar_ne bodyKey htmlString k hk fm
  · rfl

/-- Front matter for the C8 witness: a `title` entry and a `body` entry that
must be displaced by the rendered HTML. -/
def c8fm : Vars := [(chars "title", chars "My Site"), (bodyKey, chars "stale")]

/-- Witness for C8: with front matter defining `body`, the built mapping
binds `body` to the rendered HTML, the warning flag is raised, and the
`title` entry survives unchanged. -/
theorem c8_witness :
    lookupVar bodyKey (buildTemplateVars (some c8fm) (chars "<p>hi</p>")).fst =
      some (chars "<p>hi</p>") ∧
    (buildTemplateVars (some c8fm) (chars "<p>hi</p>")).snd = true ∧
    lookupVar (chars "title") (buildTemplateVars (some c8fm) (chars "<p>hi</p>")).fst =
      some (chars "My Site") := by
  have h := c8_body_overwritten c8fm (chars "<p>hi</p>")
  refine ⟨h.1, ?_, ?_⟩
  · rw [h.2.1]; rfl
  · rw [h.2.2.1 (chars "title") (by decide)]; rfl

/-- A file-system side effect of the book-generation path, in program
order. -/
inductive FsAction : Type
  | removeDirAll (path : List Char)
  | createDirAll (path : List Char)
  | copyTree (src dst omitExt : List Char)
  | createFile (path : List Char)
  | openRead (path : List Char)
deriving DecidableEq

/-- `Web::clean_folder` (web.rs lines 243-249): delete the folder when it
exists, then recreate it. -/
def clean_folder_trace (path : List Char) (pathExists : Bool) : List FsAction :=
  (if pathExists then [FsAction.removeDirAll path] else []) ++
    [FsAction.createDirAll path]

/-- `Web::clean_and_setup_directories` (web.rs lines 251-261): clean the
output folder, then copy the template directory into it omitting `hbs`
files. -/
def clean_and_setup_trace (outPath templateDirPath : List Char)
    (outExists : Bool) : List FsAction :=
  clean_folder_trace outPath outExists ++
    [FsAction.copyTree templateDirPath outPath (chars "hbs")]

/-- The file-system effects of `Web::make_book_internal` (web.rs lines
162-240): create the fixed-name `book.epub` in the current working
directory, then open every scanned document for reading; the finished
package is written through the already-created `book.epub` handle. -/
def make_book_trace (docs : List (List Char)) : List FsAction :=
  FsAction.createFile (chars "book.epub") :: docs.map FsAction.openRead

/-- `Web::gen_book` (web.rs lines 262-270): clean and set up the output
directories, then build the book. -/
def gen_book_trace (outPath templateDirPath : List Char) (outExists : Bool)
    (docs : List (List Char)) : List FsAction :=
  clean_and_setup_trace outPath templateDirPath outExists ++ make_book_trace docs

/-- `p` lies inside directory `dir` (is the directory or is under it). -/
def underDir (dir p : List Char) : Bool :=
  p = dir || (dir ++ chars "/").isPrefixOf p

/-- Recognizes the file-creation effects in a trace. -/
def isCreateFile : FsAction → Bool
  | FsAction.createFile _ => true
  | _ => false

theorem filter_isCreateFile_map_openRead (docs : List (List Char)) :
    (docs.map FsAction.openRead).filter isCreateFile = [] := by
  induction docs with
  | nil => rfl
  | cons d ds ih => simp [isCreateFile, ih]

/-- Claim C9: a book run first deletes and recreates the entire output
directory and copies the template-support assets into it, before any
packaging effect; yet the only file the run creates is the fixed path
`book.epub` in the current working directory, which is not under the
default output root `_website` — so the run destroys prior website output
while producing no book content in the output root. -/
theorem c9_book_run_effects (outPath templateDirPath : List Char)
    (docs : List (List Char)) :
    gen_book_trace outPath templateDirPath true docs =
      FsAction.removeDirAll outPath :: FsAction.createDirAll outPath ::
        FsAction.copyTree templateDirPath outPath (chars "hbs") ::
        FsAction.createFile (chars "book.epub") :: docs.map FsAction.openRead ∧
    (gen_book_trace outPath templateDirPath true docs).filter isCreateFile =
      [FsAction.createFile (chars "book.epub")] ∧
    underDir (chars "_website") (chars "book.epub") = false := by
  refine ⟨?_, ?_, ?_⟩
  · rfl
  · simp [gen_book_trace, clean_and_setup_trace, clean_folder_trace,
      make_book_trace, isCreateFile, filter_isCreateFile_map_openRead]
  · rfl

end Webgenr
